import Mathlib

/-!
Shallow embedding of `main.py` (FinTrack Expense Analyzer).

The Python program cleans a semicolon-separated CSV of expense rows and sums
the `Amount` column over rows whose cleaned `Category` is `"Food"`.

Modelling conventions:
* Python string cell values coming out of pandas are modelled as
  `Option String`; `none` stands for an absent value (`None` / `NaN`), for
  which `pd.isna` is true.
* Python `float` values are modelled by `PyFloat`: an exact rational for
  finite values, plus `inf`, `negInf` and `nan`.  Finite arithmetic is exact
  rational arithmetic (binary rounding of IEEE doubles is not modelled).
* Whitespace, lower-casing and digit tests are modelled on the character
  sets the inputs of this program use (ASCII); Python additionally handles
  further Unicode classes the same way on ASCII input.
-/

/-- Characters Python's `str.strip`, `str.split()` and `re`'s `\s` treat as
whitespace (the ASCII and Latin-1 part of the Unicode whitespace class). -/
def isPyWs (c : Char) : Bool :=
  c.toNat = 32 ∨ c.toNat = 9 ∨ c.toNat = 10 ∨ c.toNat = 13 ∨ c.toNat = 11 ∨
  c.toNat = 12 ∨ c.toNat = 28 ∨ c.toNat = 29 ∨ c.toNat = 30 ∨ c.toNat = 31 ∨
  c.toNat = 133 ∨ c.toNat = 160

/-- A decimal digit character (`re`'s `\d` / `str.isdigit` on ASCII). -/
def isDigitCh (c : Char) : Bool := 48 ≤ c.toNat ∧ c.toNat ≤ 57

/-- Python `str.strip()` on a list of characters. -/
def pyStripList (l : List Char) : List Char :=
  ((l.dropWhile isPyWs).reverse.dropWhile isPyWs).reverse

/-- Python `str.strip()`. -/
def pyStrip (s : String) : String :=
  String.mk (pyStripList s.toList)

/-- Python `str.lower()` (ASCII case mapping). -/
def pyLower (s : String) : String :=
  String.mk (s.toList.map Char.toLower)

/-- Python `str.endswith(suffix)`. -/
def pyEndsWith (s suf : String) : Bool :=
  suf.toList.isSuffixOf s.toList

/-- Split a character list at every occurrence of the character `c`
(the splitting underlying both `datetime.strptime` field separation and
`str.split(sep)` / pandas' `sep=';'` field separation). -/
def splitListOn (c : Char) : List Char → List (List Char)
  | [] => [[]]
  | x :: xs =>
    match splitListOn c xs with
    | [] => [[]]
    | g :: gs => if x = c then [] :: g :: gs else (x :: g) :: gs

/-- Numeric value of a decimal digit character. -/
def charVal (c : Char) : ℕ := c.toNat - 48

/-- The decimal digit character for `d < 10`. -/
def digitChar (d : ℕ) : Char := Char.ofNat (48 + d)

/-- Value of a big-endian list of decimal digit characters. -/
def digitsValNat (l : List Char) : ℕ :=
  l.foldl (fun a c => 10 * a + charVal c) 0

/-- Big-endian decimal digits of `n`, no leading zeros (`fuel ≥ n` suffices). -/
def natToDigitsAux : ℕ → ℕ → List Char
  | 0, _ => []
  | fuel + 1, n => if n = 0 then [] else natToDigitsAux fuel (n / 10) ++ [digitChar (n % 10)]

/-- Big-endian decimal rendering of a natural number. -/
def natRender (n : ℕ) : List Char :=
  if n = 0 then ['0'] else natToDigitsAux n n

/-- Zero-pad a digit list on the left to width `w` (C `strftime` `%0wd`). -/
def padLeftZero (w : ℕ) (l : List Char) : List Char :=
  List.replicate (w - l.length) '0' ++ l

/-! ## `clean_date` (main.py lines 20–44) -/

/-- Gregorian leap year, as `datetime` uses. -/
def isLeap (y : ℕ) : Bool := y % 4 = 0 ∧ (y % 100 ≠ 0 ∨ y % 400 = 0)

/-- Days in month `m` of year `y`, as `datetime` validates. -/
def daysInMonth (y m : ℕ) : ℕ :=
  if m = 2 then (if isLeap y then 29 else 28)
  else if m = 4 ∨ m = 6 ∨ m = 9 ∨ m = 11 then 30 else 31

/-- `strptime`'s `%d` / `%m` field: one or two decimal digits whose value
lies in `[1, max]` (`max` is 31 for `%d`, 12 for `%m`). -/
def fieldDM (l : List Char) (max : ℕ) : Option ℕ :=
  if l.all isDigitCh ∧ (l.length = 1 ∨ l.length = 2) then
    let v := digitsValNat l
    if 1 ≤ v ∧ v ≤ max then some v else none
  else none

/-- `strptime`'s `%Y` field: exactly four decimal digits. -/
def fieldY (l : List Char) : Option ℕ :=
  if l.all isDigitCh ∧ l.length = 4 then some (digitsValNat l) else none

/-- Order of the year, month and day fields in a date format string. -/
inductive DOrder | ymd | dmy | mdy
deriving DecidableEq

/-- One `datetime.strptime(s, fmt)` attempt for a format made of three fields
joined by the separator `sep`, followed by `datetime`'s range validation
(year ≥ 1, day within the month).  Returns `(year, month, day)`. -/
def tryFormat (sep : Char) (ord : DOrder) (l : List Char) : Option (ℕ × ℕ × ℕ) :=
  match splitListOn sep l with
  | [a, b, c] =>
    let ymd? : Option (ℕ × ℕ × ℕ) :=
      match ord with
      | .ymd => do pure (← fieldY a, ← fieldDM b 12, ← fieldDM c 31)
      | .dmy => do pure (← fieldY c, ← fieldDM b 12, ← fieldDM a 31)
      | .mdy => do pure (← fieldY c, ← fieldDM a 12, ← fieldDM b 31)
    match ymd? with
    | some (y, m, d) => if 1 ≤ y ∧ d ≤ daysInMonth y m then some (y, m, d) else none
    | none => none
  | _ => none

/-- The six formats of `clean_date`, in the order the code tries them:
`%Y-%m-%d`, `%d/%m/%Y`, `%m/%d/%Y`, `%d-%m-%Y`, `%m-%d-%Y`, `%Y/%m/%d`. -/
def dateFormats : List (Char × DOrder) :=
  [('-', .ymd), ('/', .dmy), ('/', .mdy), ('-', .dmy), ('-', .mdy), ('/', .ymd)]

/-- First format of `dateFormats` that parses `l`, with its parse result. -/
def tryFormats (l : List Char) : Option (ℕ × ℕ × ℕ) :=
  (dateFormats.filterMap (fun f => tryFormat f.1 f.2 l)).head?

/-- `parsed_date.strftime("%Y-%m-%d")`: ISO rendering, zero-padded. -/
def fmtISO (y m d : ℕ) : List Char :=
  padLeftZero 4 (natRender y) ++ '-' :: padLeftZero 2 (natRender m) ++
    '-' :: padLeftZero 2 (natRender d)

/-- `clean_date` (main.py lines 20–44): `None`/empty input maps to `None`;
otherwise the stripped string is parsed against the six formats in order and
reformatted as ISO on the first success, or returned stripped-but-unchanged
when no format matches. -/
def clean_date : Option String → Option String
  | none => none
  | some s =>
    if s = "" then none
    else
      let t := pyStripList s.toList
      match tryFormats t with
      | some (y, m, d) => some (String.mk (fmtISO y m d))
      | none => some (String.mk t)

example : clean_date (some "20/04/2023") = some "2023-04-20" := by decide
example : clean_date (some "2023/04/20") = some "2023-04-20" := by decide
example : clean_date (some "2023-04-20") = some "2023-04-20" := by decide
example : clean_date (some "04-05-2023") = some "2023-05-04" := by decide
example : clean_date (some "not-a-date") = some "not-a-date" := by decide
example : clean_date (some "") = none := by decide
example : clean_date (some "  ") = some "" := by decide
example : clean_date (some " 2023-02-29 ") = some "2023-02-29" := by decide

/-! ## `clean_amount` (main.py lines 46–66) -/

/-- A Python `float` value: an exact rational for finite values (the binary
rounding of IEEE doubles is not modelled), plus the three special values. -/
inductive PyFloat
  | finite (q : ℚ)
  | inf
  | negInf
  | nan
deriving DecidableEq

/-- A `digitpart` of Python's float-literal grammar: a nonempty digit
sequence with single underscores allowed strictly between digits. -/
def validDigitPart (l : List Char) : Bool :=
  match l with
  | [] => false
  | c :: rest =>
    c.isDigit ∧ go rest
where
  go : List Char → Bool
    | [] => true
    | '_' :: c :: rest => c.isDigit ∧ go rest
    | '_' :: [] => false
    | c :: rest => c.isDigit ∧ go rest

/-- Digit value of a digit part, ignoring underscores. -/
def digitPartVal (l : List Char) : ℕ :=
  digitsValNat (l.filter (fun c => c ≠ '_'))

/-- The fixed-point part of a float literal: `[digitpart] [. [digitpart]]`,
at least one digit overall.  Returns (numerator, number of fraction digits). -/
def mantissa? (l : List Char) : Option (ℕ × ℕ) :=
  match splitListOn '.' l with
  | [ip] => if validDigitPart ip then some (digitPartVal ip, 0) else none
  | [ip, fp] =>
    if (ip = [] ∨ validDigitPart ip) ∧ (fp = [] ∨ validDigitPart fp) ∧
        ¬(ip = [] ∧ fp = []) then
      some (digitPartVal ip * 10 ^ (fp.filter (fun c => c ≠ '_')).length +
        digitPartVal fp, (fp.filter (fun c => c ≠ '_')).length)
    else none
  | _ => none

/-- An optionally signed digit part (the exponent of a float literal). -/
def signedDigitPart? (l : List Char) : Option ℤ :=
  match l with
  | '+' :: rest => if validDigitPart rest then some (digitPartVal rest) else none
  | '-' :: rest => if validDigitPart rest then some (-(digitPartVal rest : ℤ)) else none
  | rest => if validDigitPart rest then some (digitPartVal rest) else none

/-- The rational `m / 10^k * 10^e` (value of a parsed decimal literal),
built with `Rat.divInt` so that it evaluates by kernel reduction. -/
def decValue (m k : ℕ) (e : ℤ) : ℚ :=
  if 0 ≤ e then Rat.divInt (m * 10 ^ e.toNat) (10 ^ k)
  else Rat.divInt m (10 ^ k * 10 ^ (-e).toNat)

/-- Split an unsigned float literal at its exponent marker `e`/`E`
(digit parts cannot contain `e`, so at most one way to read it). -/
def unsignedFloatVal? (l : List Char) : Option ℚ :=
  match l.splitOnP (fun c => c = 'e' ∨ c = 'E') with
  | [m] => (mantissa? m).map (fun p => decValue p.1 p.2 0)
  | [m, x] => do
    let p ← mantissa? m
    let e ← signedDigitPart? x
    pure (decValue p.1 p.2 e)
  | _ => none

/-- Python's `float(str)`: optional surrounding whitespace, optional sign,
then `inf`/`infinity`/`nan` (case-insensitive) or a decimal literal with an
optional exponent.  `none` models `ValueError`.  (Overflow of huge finite
literals to `inf` is not modelled; finite values stay exact rationals.) -/
def pyFloatOfString? (s : String) : Option PyFloat :=
  let l := pyStripList s.toList
  let signed : Bool × List Char :=
    match l with
    | '+' :: rest => (false, rest)
    | '-' :: rest => (true, rest)
    | rest => (false, rest)
  let body := signed.2.map Char.toLower
  if body = "inf".toList ∨ body = "infinity".toList then
    some (if signed.1 then .negInf else .inf)
  else if body = "nan".toList then some .nan
  else
    (unsignedFloatVal? signed.2).map
      (fun q => .finite (if signed.1 then -q else q))

/-- The decimal-separator disambiguation of `clean_amount`: a comma with no
period becomes the decimal point; commas alongside a period are thousands
separators and are dropped; otherwise the string is unchanged. -/
def separatorPass (l : List Char) : List Char :=
  if (',' ∈ l) ∧ ¬ ('.' ∈ l) then l.map (fun c => if c = ',' then '.' else c)
  else if (',' ∈ l) ∧ ('.' ∈ l) then l.filter (fun c => c ≠ ',')
  else l

/-- The string `clean_amount` hands to `float(...)`: its `.strip()` and
`re.sub(r'\s+', '', ...)` steps (together: drop every whitespace character),
then the comma/period `separatorPass`. -/
def amountNormalizedChars (s : String) : List Char :=
  separatorPass ((pyStripList s.toList).filter (fun c => ! isPyWs c))

/-- `clean_amount` (main.py lines 46–66): `NaN` maps to `0.0`; otherwise all
whitespace is removed, a lone comma becomes the decimal point, commas are
dropped when a period is also present, and the result is parsed with
`float`, with `0.0` on `ValueError`. -/
def clean_amount : Option String → PyFloat
  | none => .finite 0
  | some s =>
    match pyFloatOfString? (String.mk (amountNormalizedChars s)) with
    | some v => v
    | none => .finite 0

example : clean_amount (some "1,234.56") = .finite (Rat.divInt 123456 100) := by decide
example : clean_amount (some "12,50") = .finite (Rat.divInt 1250 100) := by decide
example : clean_amount (some "") = .finite 0 := by decide
example : clean_amount (some "abc") = .finite 0 := by decide
example : clean_amount (some " 1 2,5 ") = .finite (Rat.divInt 125 10) := by decide
example : clean_amount (some "-2.5e1") = .finite (-(25 : ℤ) : ℚ) := by decide
example : clean_amount (some "inf") = .inf := by decide
example : clean_amount (some "1_0") = .finite ((10 : ℤ) : ℚ) := by decide
example : clean_amount (some "1_") = .finite 0 := by decide
example : clean_amount (some ".5") = .finite (Rat.divInt 1 2) := by decide

/-! ## `clean_category` (main.py lines 68–84) -/

/-- `clean_category` (main.py lines 68–84): `NaN`/empty maps to `"Other"`;
otherwise the stripped, lower-cased input is looked up in the fixed mapping,
defaulting to `"Other"`. -/
def clean_category : Option String → String
  | none => "Other"
  | some s =>
    if s = "" then "Other"
    else
      let t := pyLower (pyStrip s)
      if t = "food" then "Food"
      else if t = "travel" then "Travel"
      else if t = "health" then "Health"
      else if t = "office" then "Office"
      else if t = "other" then "Other"
      else "Other"

example : clean_category (some "FOOD") = "Food" := by decide
example : clean_category (some " travel ") = "Travel" := by decide
example : clean_category (some "groceries") = "Other" := by decide
example : clean_category (some "") = "Other" := by decide
example : clean_category none = "Other" := by decide

/-! ## `clean_name` (main.py lines 86–96) -/

/-- Python `str.split()`: split on whitespace runs, dropping empty pieces. -/
def pySplitWs (l : List Char) : List (List Char) :=
  (splitListOn ' ' (l.map (fun c => if isPyWs c then ' ' else c))).filter
    (fun w => w ≠ [])

/-- Python `str.capitalize()` (ASCII case mapping). -/
def pyCapitalize : List Char → List Char
  | [] => []
  | c :: rest => c.toUpper :: rest.map Char.toLower

/-- `clean_name` (main.py lines 86–96): `NaN`/empty maps to `""`; otherwise
the words of the input are capitalized and re-joined with single spaces. -/
def clean_name : Option String → String
  | none => ""
  | some s =>
    if s = "" then ""
    else String.mk (List.intercalate [' '] ((pySplitWs s.toList).map pyCapitalize))

example : clean_name (some "john DOE") = "John Doe" := by decide
example : clean_name (some "  a  b ") = "A B" := by decide
example : clean_name none = "" := by decide

/-! ## Rational arithmetic helpers

`Rat.add` and friends do not evaluate by kernel reduction, so the model's
arithmetic is built from `Rat.divInt`, which does; `ratAdd_eq_add` shows it
is ordinary rational addition. -/

/-- Rational addition, built from `Rat.divInt`. -/
def ratAdd (a b : ℚ) : ℚ :=
  Rat.divInt (a.num * b.den + b.num * a.den) (a.den * b.den)

theorem ratAdd_eq_add (a b : ℚ) : ratAdd a b = a + b := by
  unfold ratAdd
  rw [Rat.divInt_eq_div]
  have ha : (a.den : ℚ) ≠ 0 := Nat.cast_ne_zero.2 a.den_nz
  have hb : (b.den : ℚ) ≠ 0 := Nat.cast_ne_zero.2 b.den_nz
  have h1 : (a.num : ℚ) = a * a.den := (div_eq_iff ha).1 (Rat.num_div_den a)
  have h2 : (b.num : ℚ) = b * b.den := (div_eq_iff hb).1 (Rat.num_div_den b)
  push_cast
  rw [div_eq_iff (mul_ne_zero ha hb)]
  rw [h1, h2]; ring

/-- IEEE addition on Python floats (finite arithmetic modelled exactly;
overflow to `inf` not modelled). -/
def PyFloat.add : PyFloat → PyFloat → PyFloat
  | .nan, _ => .nan
  | _, .nan => .nan
  | .inf, .negInf => .nan
  | .negInf, .inf => .nan
  | .inf, _ => .inf
  | _, .inf => .inf
  | .negInf, _ => .negInf
  | _, .negInf => .negInf
  | .finite a, .finite b => .finite (ratAdd a b)

/-- `Series.sum()` with pandas' default `skipna=True`: `NaN` entries are
skipped, the rest are summed from `0.0`. -/
def pandasSum (l : List PyFloat) : PyFloat :=
  (l.filter (fun v => v ≠ .nan)).foldl PyFloat.add (.finite 0)

/-- Nearest integer to `100 * q`, ties to even (the rounding of `%.2f`). -/
def roundHalfEvenScaled (q : ℚ) : ℤ :=
  let a := q.num * 100
  let b := (q.den : ℤ)
  let quot := a.fdiv b
  let rem := a.fmod b
  if 2 * rem < b then quot
  else if b < 2 * rem then quot + 1
  else if quot % 2 = 0 then quot else quot + 1

/-- Render `n` hundredths with two decimal places. -/
def fmtF2nonneg (n : ℕ) : List Char :=
  natRender (n / 100) ++ '.' :: padLeftZero 2 (natRender (n % 100))

/-- Python's `f"{x:.2f}"` for a float `x`. -/
def pyFormatF2 : PyFloat → String
  | .finite q =>
    if q.num < 0 then String.mk ('-' :: fmtF2nonneg (roundHalfEvenScaled (-q)).toNat)
    else String.mk (fmtF2nonneg (roundHalfEvenScaled q).toNat)
  | .inf => "inf"
  | .negInf => "-inf"
  | .nan => "nan"

example : pyFormatF2 (.finite (Rat.divInt 25 2)) = "12.50" := by decide
example : pyFormatF2 (.finite 0) = "0.00" := by decide
example : pyFormatF2 (.finite (Rat.divInt 1 8)) = "0.12" := by decide
example : pyFormatF2 (.finite (Rat.divInt 3 8)) = "0.38" := by decide
example : pyFormatF2 (.finite (Rat.divInt (-7) 2)) = "-3.50" := by decide
example : pyFormatF2 (.finite (Rat.divInt (-1) 1000)) = "-0.00" := by decide

/-! ## UTF-8 (the `content.decode('utf-8')` step) -/

/-- Is `b` a UTF-8 continuation byte? -/
def contByte (b : ℕ) : Bool := 0x80 ≤ b ∧ b < 0xC0

/-- Strict UTF-8 decoding with explicit fuel (any `fuel ≥ length` works);
rejects overlong forms, surrogates and out-of-range code points, as Python's
strict `bytes.decode('utf-8')` does. -/
def utf8DecodeAux : ℕ → List ℕ → Option (List Char)
  | _, [] => some []
  | 0, _ :: _ => none
  | fuel + 1, b :: rest =>
    if b < 0x80 then (utf8DecodeAux fuel rest).map (fun cs => Char.ofNat b :: cs)
    else if b < 0xC2 then none
    else if b < 0xE0 then
      match rest with
      | b1 :: rest1 =>
        if contByte b1 then
          (utf8DecodeAux fuel rest1).map
            (fun cs => Char.ofNat ((b - 0xC0) * 0x40 + (b1 - 0x80)) :: cs)
        else none
      | _ => none
    else if b < 0xF0 then
      match rest with
      | b1 :: b2 :: rest2 =>
        if (if b = 0xE0 then 0xA0 ≤ b1 ∧ b1 < 0xC0
            else if b = 0xED then 0x80 ≤ b1 ∧ b1 < 0xA0
            else contByte b1 = true) ∧ contByte b2 then
          (utf8DecodeAux fuel rest2).map
            (fun cs => Char.ofNat ((b - 0xE0) * 0x1000 + (b1 - 0x80) * 0x40 + (b2 - 0x80)) :: cs)
        else none
      | _ => none
    else if b < 0xF5 then
      match rest with
      | b1 :: b2 :: b3 :: rest3 =>
        if (if b = 0xF0 then 0x90 ≤ b1 ∧ b1 < 0xC0
            else if b = 0xF4 then 0x80 ≤ b1 ∧ b1 < 0x90
            else contByte b1 = true) ∧ contByte b2 ∧ contByte b3 then
          (utf8DecodeAux fuel rest3).map
            (fun cs => Char.ofNat
              ((b - 0xF0) * 0x40000 + (b1 - 0x80) * 0x1000 + (b2 - 0x80) * 0x40 + (b3 - 0x80)) :: cs)
        else none
      | _ => none
    else none

/-- `bytes.decode('utf-8')` with strict error handling; `none` models
`UnicodeDecodeError`. -/
def utf8Decode (body : List ℕ) : Option (List Char) :=
  utf8DecodeAux body.length body

/-- UTF-8 encoding of one character. -/
def utf8EncodeChar (c : Char) : List ℕ :=
  let n := c.toNat
  if n < 0x80 then [n]
  else if n < 0x800 then [0xC0 + n / 0x40, 0x80 + n % 0x40]
  else if n < 0x10000 then
    [0xE0 + n / 0x1000, 0x80 + (n / 0x40) % 0x40, 0x80 + n % 0x40]
  else
    [0xF0 + n / 0x40000, 0x80 + (n / 0x1000) % 0x40, 0x80 + (n / 0x40) % 0x40, 0x80 + n % 0x40]

/-- UTF-8 encoding of a string (used to build concrete request bodies). -/
def utf8Encode (s : String) : List ℕ :=
  (s.toList.map utf8EncodeChar).flatten

example : utf8Decode (utf8Encode "héllo;1") = some "héllo;1".toList := by decide
example : utf8Decode [0xFF] = none := by decide
example : utf8Decode [0xC0, 0x80] = none := by decide
example : utf8Decode [0xED, 0xA0, 0x80] = none := by decide

/-! ## `pd.read_csv(..., sep=';')` (main.py line 110)

Modelled fragment of pandas with the call's settings (`sep=';'`, C engine
defaults): a character-level tokenizer with `quotechar='"'` and
`doublequote=True` (a field beginning with a quote is read to the closing
quote with `""` as a literal quote, and separators and line breaks inside
quotes are literal; a quote starting mid-field is literal; an unclosed
quote is a parse error), records ended by `\n`, `\r\n` or `\r`, blank lines
skipped; the first record names the columns; data rows shorter than the
table width are padded with missing values, extra leading columns implied
by the first data row are absorbed as the index, and a data row wider than
the table is a tokenizing error; the default `na_values` sentinels are read
as missing and all other cells kept as strings.  Not modelled: pandas'
numeric dtype inference (the cleaning functions immediately re-coerce cells
through `str`/`float`, which agrees on such cells) and its renaming of
empty or duplicate header cells (the lookup of the four required column
names and the cell positions are unaffected). -/

/-- pandas' default `na_values` sentinels. -/
def naValues : List (List Char) :=
  ["", "#N/A", "#N/A N/A", "#NA", "-1.#IND", "-1.#QNAN", "-NaN", "-nan",
   "1.#IND", "1.#QNAN", "<NA>", "N/A", "NA", "NULL", "NaN", "None", "n/a",
   "nan", "null"].map String.toList

/-- One CSV cell: `na_values` sentinels become missing. -/
def toCell (l : List Char) : Option String :=
  if l ∈ naValues then none else some (String.mk l)

/-- State of the CSV tokenizer: at a field start, inside an unquoted field,
inside a quoted field, or just after a closing quote. -/
inductive CsvMode | fieldStart | unquoted | quoted | afterQuote
deriving DecidableEq

/-- Record terminator handling: close the current record, skipping it when
the line was blank (`skip_blank_lines=True`). -/
def csvEndRecord (field : List Char) (fields : List (List Char)) (saw : Bool)
    (rows : List (List (List Char))) : List (List (List Char)) :=
  if saw then rows ++ [fields ++ [field]] else rows

/-- The CSV tokenizer (explicit fuel; any `fuel ≥` input length works).
`none` models the parser's "EOF inside string" error for an unclosed
quote. -/
def csvTokenizeAux :
    ℕ → CsvMode → List Char → List (List Char) → Bool →
      List (List (List Char)) → List Char → Option (List (List (List Char)))
  | _, mode, field, fields, saw, rows, [] =>
    match mode with
    | .quoted => none
    | _ => some (csvEndRecord field fields saw rows)
  | 0, _, _, _, _, _, _ :: _ => none
  | fuel + 1, mode, field, fields, saw, rows, c :: rest =>
    match mode with
    | .fieldStart =>
      if c = '"' then csvTokenizeAux fuel .quoted field fields true rows rest
      else if c = ';' then
        csvTokenizeAux fuel .fieldStart [] (fields ++ [field]) true rows rest
      else if c = '\n' then
        csvTokenizeAux fuel .fieldStart [] [] false
          (csvEndRecord field fields saw rows) rest
      else if c = '\r' then
        csvTokenizeAux fuel .fieldStart [] [] false
          (csvEndRecord field fields saw rows)
          (match rest with | '\n' :: rest2 => rest2 | _ => rest)
      else csvTokenizeAux fuel .unquoted (field ++ [c]) fields true rows rest
    | .unquoted =>
      if c = ';' then
        csvTokenizeAux fuel .fieldStart [] (fields ++ [field]) saw rows rest
      else if c = '\n' then
        csvTokenizeAux fuel .fieldStart [] [] false
          (csvEndRecord field fields saw rows) rest
      else if c = '\r' then
        csvTokenizeAux fuel .fieldStart [] [] false
          (csvEndRecord field fields saw rows)
          (match rest with | '\n' :: rest2 => rest2 | _ => rest)
      else csvTokenizeAux fuel .unquoted (field ++ [c]) fields saw rows rest
    | .quoted =>
      if c = '"' then csvTokenizeAux fuel .afterQuote field fields saw rows rest
      else csvTokenizeAux fuel .quoted (field ++ [c]) fields saw rows rest
    | .afterQuote =>
      if c = '"' then
        csvTokenizeAux fuel .quoted (field ++ ['"']) fields saw rows rest
      else if c = ';' then
        csvTokenizeAux fuel .fieldStart [] (fields ++ [field]) saw rows rest
      else if c = '\n' then
        csvTokenizeAux fuel .fieldStart [] [] false
          (csvEndRecord field fields saw rows) rest
      else if c = '\r' then
        csvTokenizeAux fuel .fieldStart [] [] false
          (csvEndRecord field fields saw rows)
          (match rest with | '\n' :: rest2 => rest2 | _ => rest)
      else csvTokenizeAux fuel .unquoted (field ++ [c]) fields saw rows rest

/-- Tokenize a whole file into records of raw (quote-stripped) fields. -/
def csvTokenize (l : List Char) : Option (List (List (List Char))) :=
  csvTokenizeAux l.length .fieldStart [] [] false [] l

deriving instance DecidableEq for Except

/-- A parsed CSV: column names and rows of (possibly missing) string cells. -/
structure CsvTable where
  header : List String
  rows : List (List (Option String))
deriving DecidableEq

/-- `pd.read_csv(io.StringIO(text), sep=';')` on the modelled fragment;
`Except.error` carries the exception message `str(e)`.  The table width is
the header width plus any extra leading columns the first data row implies;
those leading columns are the (dropped) index, short rows are padded with
missing values on the right, and a wider row is a tokenizing error. -/
def read_csv (text : String) : Except String CsvTable :=
  match csvTokenize text.toList with
  | none => .error "EOF inside string starting at row 0"
  | some [] => .error "No columns to parse from file"
  | some (h :: data) =>
    let header := h.map String.mk
    let n := header.length
    let w := match data with
      | [] => n
      | r :: _ => max n r.length
    if data.all (fun r => r.length ≤ w) then
      .ok ⟨header,
        data.map (fun r =>
          (((r ++ List.replicate (w - r.length) []).drop (w - n)).map toCell))⟩
    else .error "Error tokenizing data."

example :
    read_csv "Name;Date;Amount;Category\nx;y" =
      .ok ⟨["Name", "Date", "Amount", "Category"],
        [[some "x", some "y", none, none]]⟩ := by decide
example :
    read_csv "Name;Date;Amount;Category\nx;2023-01-01;5.00;\"food\"" =
      .ok ⟨["Name", "Date", "Amount", "Category"],
        [[some "x", some "2023-01-01", some "5.00", some "food"]]⟩ := by decide
example :
    read_csv "Name;Date\n0;a;b\n1;c;d" =
      .ok ⟨["Name", "Date"],
        [[some "a", some "b"], [some "c", some "d"]]⟩ := by decide
example :
    read_csv "Name;Date\na;b\nc;d;e" = .error "Error tokenizing data." := by
  decide
example : read_csv "a;\"b\"\"c\";d\n" = .ok ⟨["a", "b\"c", "d"], []⟩ := by decide
example :
    read_csv "A;B\n\"x;\ny\";z\n" =
      .ok ⟨["A", "B"], [[some "x;\ny", some "z"]]⟩ := by decide
example : read_csv "A;B\r\na;b\r\n" = .ok ⟨["A", "B"], [[some "a", some "b"]]⟩ := by
  decide
example : read_csv "\"ab" = .error "EOF inside string starting at row 0" := by
  decide
example : read_csv "" = .error "No columns to parse from file" := by decide
example : read_csv "\n\nA;B\n\na;b\n" =
    .ok ⟨["A", "B"], [[some "a", some "b"]]⟩ := by decide

/-! ## `/analyze` (main.py lines 98–134) -/

/-- Cell `i` of a row (`none` when missing). -/
def cell (r : List (Option String)) (i : ℕ) : Option String :=
  match r.get? i with
  | some v => v
  | none => none

/-- Index of a named column (`df[name]`; `none` models `KeyError`). -/
def findCol (header : List String) (name : String) : Option ℕ :=
  header.findIdx? (fun h => h = name)

/-- One data row after the four column-wise cleaning assignments. -/
structure CleanedRow where
  name : String
  date : Option String
  amount : PyFloat
  category : String
deriving DecidableEq

/-- Apply the four cleaning functions to the cells of one row, given the
column indices of `Name`, `Date`, `Amount` and `Category`. -/
def cleanRow (iN iD iA iC : ℕ) (r : List (Option String)) : CleanedRow :=
  ⟨clean_name (cell r iN), clean_date (cell r iD),
   clean_amount (cell r iA), clean_category (cell r iC)⟩

/-- `df[df['Category'] == 'Food']['Amount'].sum()` on the cleaned table. -/
def foodTotal (tbl : CsvTable) (iN iD iA iC : ℕ) : PyFloat :=
  pandasSum
    (((tbl.rows.map (cleanRow iN iD iA iC)).filter
        (fun r => r.category = "Food")).map CleanedRow.amount)

/-- The fixed `email` field of the response. -/
def EMAIL : String := "22f3003091@ds.study.iitm.ac.in"

/-- The fixed `exam` field of the response. -/
def EXAM : String := "tds-2025-05-roe"

/-- The JSON body of a successful `/analyze` response. -/
structure AnalyzeResponse where
  answer : String
  email : String
  exam : String
deriving DecidableEq

/-- An `HTTPException`: status code and detail message. -/
structure HTTPError where
  status : ℕ
  detail : String
deriving DecidableEq

/-- Modelled message of a `UnicodeDecodeError` (its exact text carries the
offending byte and position, which the claims do not depend on). -/
def utf8ErrorMsg : String := "'utf-8' codec can't decode"

/-- The body of the `try:` block of `analyze_expenses` (main.py lines
107–131), after the upload's bytes have been decoded: parse the CSV, clean
the four columns (`KeyError` on a missing one, in the order the code touches
them), filter to `Food` rows, sum their amounts and format the response. -/
def analyze_core (text : String) : Except String AnalyzeResponse :=
  match read_csv text with
  | .error e => .error e
  | .ok tbl =>
    match findCol tbl.header "Name", findCol tbl.header "Date",
        findCol tbl.header "Amount", findCol tbl.header "Category" with
    | none, _, _, _ => .error "'Name'"
    | some _, none, _, _ => .error "'Date'"
    | some _, some _, none, _ => .error "'Amount'"
    | some _, some _, some _, none => .error "'Category'"
    | some iN, some iD, some iA, some iC =>
      .ok ⟨"$" ++ pyFormatF2 (foodTotal tbl iN iD iA iC), EMAIL, EXAM⟩

/-- `analyze_expenses` (main.py lines 98–134): reject non-`.csv` filenames
with a 400 before touching the body; otherwise decode and process the body,
turning any exception `e` into a 500 whose detail embeds `str(e)`. -/
def analyze_expenses (filename : String) (body : List ℕ) :
    Except HTTPError AnalyzeResponse :=
  if pyEndsWith filename ".csv" then
    match utf8Decode body with
    | none => .error ⟨500, "Error processing file: " ++ utf8ErrorMsg⟩
    | some cs =>
      match analyze_core (String.mk cs) with
      | .error m => .error ⟨500, "Error processing file: " ++ m⟩
      | .ok r => .ok r
  else .error ⟨400, "File must be a CSV"⟩

example :
    analyze_expenses "expenses.csv"
      (utf8Encode
        "Name;Date;Amount;Category\njohn doe;20/04/2023;12,50;food\njane;2023-01-01;5.00;travel\n") =
    .ok ⟨"$12.50", EMAIL, EXAM⟩ := by decide
example :
    analyze_expenses "expenses.csv" (utf8Encode "Name;Date;Amount;Category\n") =
    .ok ⟨"$0.00", EMAIL, EXAM⟩ := by decide
example :
    analyze_expenses "data.txt" (utf8Encode "Name;Date;Amount;Category\n") =
    .error ⟨400, "File must be a CSV"⟩ := by decide
example :
    analyze_expenses "data.csv" (utf8Encode "Name;Date;Amount\na;b;1\n") =
    .error ⟨500, "Error processing file: 'Category'"⟩ := by decide
example :
    analyze_expenses "data.csv" [0xFF, 0x20] =
    .error ⟨500, "Error processing file: " ++ utf8ErrorMsg⟩ := by decide
example :
    analyze_expenses "data.csv" (utf8Encode "Name;Date;Amount;Category\nx;y") =
    .ok ⟨"$0.00", EMAIL, EXAM⟩ := by decide
example :
    analyze_expenses "data.csv"
      (utf8Encode "Name;Date;Amount;Category\nx;2023-01-01;5.00;\"food\"") =
    .ok ⟨"$5.00", EMAIL, EXAM⟩ := by decide

/-! ## List, stripping and digit lemmas -/

theorem dropWhile_of_all_not {α} {p : α → Bool} (l : List α)
    (h : ∀ c ∈ l, p c = false) : l.dropWhile p = l := by
  cases l with
  | nil => rfl
  | cons x xs => simp [List.dropWhile, h x (by simp)]

theorem dropWhile_of_all {α} {p : α → Bool} (l : List α)
    (h : ∀ c ∈ l, p c = true) : l.dropWhile p = [] := by
  induction l with
  | nil => rfl
  | cons x xs ih =>
    rw [List.dropWhile_cons_of_pos (h x (by simp))]
    exact ih (fun c hc => h c (by simp [hc]))

theorem head?_dropWhile_false {α} {p : α → Bool} {x : α} :
    ∀ l : List α, (l.dropWhile p).head? = some x → p x = false := by
  intro l
  induction l with
  | nil => intro h; simp [List.dropWhile] at h
  | cons y ys ih =>
    intro h
    by_cases hy : p y = true
    · rw [List.dropWhile_cons_of_pos hy] at h; exact ih h
    · rw [List.dropWhile_cons_of_neg hy] at h
      simp at h
      rw [← h]
      simpa using hy

theorem dropWhile_idem {α} {p : α → Bool} (l : List α) :
    (l.dropWhile p).dropWhile p = l.dropWhile p := by
  cases hd : l.dropWhile p with
  | nil => rfl
  | cons x xs =>
    have hx : p x = false := head?_dropWhile_false l (by rw [hd]; rfl)
    rw [List.dropWhile_cons_of_neg (by simp [hx])]

theorem getLast?_dropWhile {α} {p : α → Bool} (l : List α)
    (h : l.dropWhile p ≠ []) : (l.dropWhile p).getLast? = l.getLast? := by
  obtain ⟨t, ht⟩ := List.dropWhile_suffix (l := l) p
  conv_rhs => rw [← ht]
  rw [List.getLast?_append_of_ne_nil _ h]

theorem pyStripList_no_ws (l : List Char) (h : ∀ c ∈ l, isPyWs c = false) :
    pyStripList l = l := by
  unfold pyStripList
  rw [dropWhile_of_all_not l h]
  rw [dropWhile_of_all_not l.reverse (fun c hc => h c (List.mem_reverse.1 hc))]
  exact List.reverse_reverse l

theorem pyStripList_all_ws (l : List Char) (h : ∀ c ∈ l, isPyWs c = true) :
    pyStripList l = [] := by
  unfold pyStripList
  rw [dropWhile_of_all l h]
  rfl

theorem pyStripList_idem (l : List Char) :
    pyStripList (pyStripList l) = pyStripList l := by
  unfold pyStripList
  set A := l.dropWhile isPyWs with hA
  set B := A.reverse.dropWhile isPyWs with hB
  have h1 : B.reverse.dropWhile isPyWs = B.reverse := by
    cases hS : B.reverse with
    | nil => rfl
    | cons x xs =>
      have hBne : B ≠ [] := by
        intro hb; rw [hb] at hS; simp at hS
      have hhead : B.reverse.head? = some x := by rw [hS]; rfl
      have hlast : B.getLast? = some x := by
        rw [← List.head?_reverse]; exact hhead
      have hlastA : A.reverse.getLast? = some x := by
        rw [← getLast?_dropWhile A.reverse (hB ▸ hBne)]
        rw [← hB]; exact hlast
      have hheadA : A.head? = some x := by
        rw [← List.head?_reverse] at hlastA
        rwa [List.reverse_reverse] at hlastA
      have hx : isPyWs x = false := by
        apply head?_dropWhile_false (p := isPyWs) l
        rw [← hA]; exact hheadA
      exact List.dropWhile_cons_of_neg (by simp [hx])
  rw [h1, List.reverse_reverse]
  have h2 : B.dropWhile isPyWs = B := by
    rw [hB]; exact dropWhile_idem _
  rw [h2]

theorem charVal_digitChar {d : ℕ} (h : d < 10) : charVal (digitChar d) = d := by
  interval_cases d <;> decide

theorem isDigitCh_digitChar {d : ℕ} (h : d < 10) : isDigitCh (digitChar d) = true := by
  interval_cases d <;> decide

theorem not_ws_of_digit {c : Char} (h : isDigitCh c = true) : isPyWs c = false := by
  simp [isDigitCh] at h
  simp [isPyWs]
  omega

theorem digitsValNat_append_digit (l : List Char) (c : Char) :
    digitsValNat (l ++ [c]) = 10 * digitsValNat l + charVal c := by
  unfold digitsValNat
  rw [List.foldl_append]
  rfl

theorem digitsValNat_cons_zero (l : List Char) :
    digitsValNat ('0' :: l) = digitsValNat l := rfl

theorem digitsValNat_padLeftZero (w : ℕ) (l : List Char) :
    digitsValNat (padLeftZero w l) = digitsValNat l := by
  unfold padLeftZero
  generalize (w - l.length) = k
  induction k with
  | zero => rfl
  | succ n ih => rw [List.replicate_succ, List.cons_append, digitsValNat_cons_zero, ih]

theorem natToDigitsAux_zero (fuel : ℕ) : natToDigitsAux fuel 0 = [] := by
  cases fuel <;> simp [natToDigitsAux]

theorem digitsValNat_natToDigitsAux :
    ∀ fuel n, n ≤ fuel → digitsValNat (natToDigitsAux fuel n) = n := by
  intro fuel
  induction fuel with
  | zero => intro n h; interval_cases n; rfl
  | succ f ih =>
    intro n h
    by_cases hn : n = 0
    · subst hn; rw [natToDigitsAux_zero]; rfl
    · rw [show natToDigitsAux (f + 1) n =
          natToDigitsAux f (n / 10) ++ [digitChar (n % 10)] by
        simp [natToDigitsAux, hn]]
      rw [digitsValNat_append_digit]
      rw [ih (n / 10) (by omega)]
      rw [charVal_digitChar (Nat.mod_lt n (by norm_num))]
      omega

theorem digitsValNat_natRender (n : ℕ) : digitsValNat (natRender n) = n := by
  unfold natRender
  by_cases hn : n = 0
  · subst hn; rfl
  · rw [if_neg hn]; exact digitsValNat_natToDigitsAux n n le_rfl

theorem natToDigitsAux_length :
    ∀ fuel n k, n < 10 ^ k → (natToDigitsAux fuel n).length ≤ k := by
  intro fuel
  induction fuel with
  | zero => intro n k _; simp [natToDigitsAux]
  | succ f ih =>
    intro n k h
    by_cases hn : n = 0
    · subst hn; simp [natToDigitsAux]
    · have hk : k ≠ 0 := by
        rintro rfl
        simp at h
        omega
      obtain ⟨k', rfl⟩ : ∃ k', k = k' + 1 := ⟨k - 1, by omega⟩
      rw [show natToDigitsAux (f + 1) n =
          natToDigitsAux f (n / 10) ++ [digitChar (n % 10)] by
        simp [natToDigitsAux, hn]]
      rw [List.length_append, List.length_singleton]
      have hdiv : n / 10 < 10 ^ k' := by
        rw [pow_succ] at h
        exact Nat.div_lt_of_lt_mul (by omega)
      exact Nat.add_le_add_right (ih (n / 10) k' hdiv) 1

theorem natRender_length_le (n k : ℕ) (h : n < 10 ^ k) (hk : 1 ≤ k) :
    (natRender n).length ≤ k := by
  unfold natRender
  by_cases hn : n = 0
  · simp [hn]; omega
  · rw [if_neg hn]; exact natToDigitsAux_length n n k h

theorem mem_natToDigitsAux_digit :
    ∀ fuel n c, c ∈ natToDigitsAux fuel n → isDigitCh c = true := by
  intro fuel
  induction fuel with
  | zero => intro n c h; simp [natToDigitsAux] at h
  | succ f ih =>
    intro n c h
    by_cases hn : n = 0
    · rw [hn, natToDigitsAux_zero] at h; simp at h
    · rw [show natToDigitsAux (f + 1) n =
          natToDigitsAux f (n / 10) ++ [digitChar (n % 10)] by
        simp [natToDigitsAux, hn]] at h
      rw [List.mem_append] at h
      rcases h with h | h
      · exact ih _ _ h
      · rw [List.mem_singleton] at h
        subst h
        exact isDigitCh_digitChar (Nat.mod_lt n (by norm_num))

theorem mem_natRender_digit (n : ℕ) (c : Char) (h : c ∈ natRender n) :
    isDigitCh c = true := by
  unfold natRender at h
  by_cases hn : n = 0
  · rw [hn] at h; simp at h; subst h; decide
  · rw [if_neg hn] at h; exact mem_natToDigitsAux_digit n n c h

theorem mem_padLeftZero_digit (w : ℕ) (l : List Char)
    (hl : ∀ c ∈ l, isDigitCh c = true) (c : Char) (h : c ∈ padLeftZero w l) :
    isDigitCh c = true := by
  unfold padLeftZero at h
  rw [List.mem_append] at h
  rcases h with h | h
  · rw [List.eq_of_mem_replicate h]; decide
  · exact hl c h

theorem padLeftZero_length (w : ℕ) (l : List Char) (h : l.length ≤ w) :
    (padLeftZero w l).length = w := by
  simp [padLeftZero]
  omega

theorem digitsValNat_lt (l : List Char) (h : ∀ c ∈ l, isDigitCh c = true) :
    digitsValNat l < 10 ^ l.length := by
  suffices H : ∀ a, l.foldl (fun a c => 10 * a + charVal c) a <
      (a + 1) * 10 ^ l.length by
    have := H 0
    simpa [digitsValNat] using this
  induction l with
  | nil => intro a; simp
  | cons c rest ih =>
    intro a
    have hc : charVal c ≤ 9 := by
      have hd := h c (by simp)
      simp [isDigitCh] at hd
      unfold charVal
      omega
    have hrest := ih (fun x hx => h x (by simp [hx])) (10 * a + charVal c)
    calc List.foldl (fun a c => 10 * a + charVal c) (10 * a + charVal c) rest
        < (10 * a + charVal c + 1) * 10 ^ rest.length := hrest
      _ ≤ ((a + 1) * 10) * 10 ^ rest.length := by
          have : 10 * a + charVal c + 1 ≤ (a + 1) * 10 := by omega
          exact Nat.mul_le_mul_right _ this
      _ = (a + 1) * 10 ^ (rest.length + 1) := by ring
      _ = (a + 1) * 10 ^ (c :: rest).length := by rw [List.length_cons]

/-! ## `splitListOn` and date-field lemmas -/

theorem splitListOn_ne_nil (c : Char) (l : List Char) : splitListOn c l ≠ [] := by
  induction l with
  | nil => simp [splitListOn]
  | cons x xs ih =>
    rw [splitListOn]
    cases hs : splitListOn c xs with
    | nil => simp
    | cons g gs => by_cases hx : x = c <;> simp [hx]

theorem splitListOn_nil (c : Char) : splitListOn c [] = [[]] := rfl

theorem splitListOn_cons_self (c : Char) (rest : List Char) :
    splitListOn c (c :: rest) = [] :: splitListOn c rest := by
  cases hs : splitListOn c rest with
  | nil => exact absurd hs (splitListOn_ne_nil c rest)
  | cons g gs => simp [splitListOn, hs]

theorem splitListOn_cons_ne (x c : Char) (hx : x ≠ c) (rest : List Char)
    (g : List Char) (gs : List (List Char)) (hs : splitListOn c rest = g :: gs) :
    splitListOn c (x :: rest) = (x :: g) :: gs := by
  simp [splitListOn, hs, hx]

theorem splitListOn_not_mem (c : Char) (l : List Char) (h : c ∉ l) :
    splitListOn c l = [l] := by
  induction l with
  | nil => rfl
  | cons x xs ih =>
    have hx : x ≠ c := by rintro rfl; exact h (by simp)
    have hxs := ih (fun hm => h (by simp [hm]))
    exact splitListOn_cons_ne x c hx xs xs [] hxs

theorem splitListOn_append (c : Char) (l rest : List Char) (h : c ∉ l) :
    splitListOn c (l ++ c :: rest) = l :: splitListOn c rest := by
  induction l with
  | nil => simpa using splitListOn_cons_self c rest
  | cons x xs ih =>
    have hx : x ≠ c := by rintro rfl; exact h (by simp)
    have hxs := ih (fun hm => h (by simp [hm]))
    rw [List.cons_append]
    cases hs : splitListOn c (xs ++ c :: rest) with
    | nil => exact absurd hs (splitListOn_ne_nil _ _)
    | cons g gs =>
      rw [hs] at hxs
      obtain ⟨rfl, rfl⟩ : xs = g ∧ splitListOn c rest = gs := by
        have h1 := hxs
        injection h1 with h1a h1b
        exact ⟨h1a.symm, h1b.symm⟩
      rw [splitListOn_cons_ne x c hx _ _ _ hs]

theorem splitListOn_two_seps (c : Char) (a b d : List Char)
    (ha : c ∉ a) (hb : c ∉ b) (hd : c ∉ d) :
    splitListOn c (a ++ c :: (b ++ c :: d)) = [a, b, d] := by
  rw [splitListOn_append c a _ ha, splitListOn_append c b _ hb,
    splitListOn_not_mem c d hd]

theorem daysInMonth_ge_28 (y m : ℕ) : 28 ≤ daysInMonth y m := by
  unfold daysInMonth
  split_ifs <;> omega

theorem fieldDM_eval (l : List Char) (max : ℕ) (hd : l.all isDigitCh = true)
    (hl : l.length = 1 ∨ l.length = 2) (h1 : 1 ≤ digitsValNat l)
    (h2 : digitsValNat l ≤ max) : fieldDM l max = some (digitsValNat l) := by
  unfold fieldDM
  rw [if_pos ⟨hd, hl⟩]
  simp only []
  rw [if_pos ⟨h1, h2⟩]

theorem fieldY_eval (l : List Char) (hd : l.all isDigitCh = true)
    (hl : l.length = 4) : fieldY l = some (digitsValNat l) := by
  unfold fieldY
  rw [if_pos ⟨hd, hl⟩]

theorem fieldY_not_len (l : List Char) (hl : l.length ≠ 4) : fieldY l = none := by
  unfold fieldY
  rw [if_neg]
  rintro ⟨-, h⟩
  exact hl h

theorem fieldY_pad (y : ℕ) (h1 : 1 ≤ y) (h2 : y ≤ 9999) :
    fieldY (padLeftZero 4 (natRender y)) = some y := by
  have hlen : (natRender y).length ≤ 4 := natRender_length_le y 4 (by omega) (by omega)
  rw [fieldY_eval]
  · rw [digitsValNat_padLeftZero, digitsValNat_natRender]
  · rw [List.all_eq_true]
    intro c hc
    exact mem_padLeftZero_digit 4 _ (fun x hx => mem_natRender_digit y x hx) c hc
  · exact padLeftZero_length 4 _ hlen

theorem fieldDM_pad (v max : ℕ) (h1 : 1 ≤ v) (h2 : v ≤ max) (h3 : v ≤ 99) :
    fieldDM (padLeftZero 2 (natRender v)) max = some v := by
  have hlen : (natRender v).length ≤ 2 := natRender_length_le v 2 (by omega) (by omega)
  have hV : digitsValNat (padLeftZero 2 (natRender v)) = v := by
    rw [digitsValNat_padLeftZero, digitsValNat_natRender]
  have := fieldDM_eval (padLeftZero 2 (natRender v)) max
    (by rw [List.all_eq_true]
        intro c hc
        exact mem_padLeftZero_digit 2 _ (fun x hx => mem_natRender_digit v x hx) c hc)
    (Or.inr (padLeftZero_length 2 _ hlen))
    (by omega) (by omega)
  rw [this, hV]

theorem fieldY_some_bounds (l : List Char) (y : ℕ) (h : fieldY l = some y) :
    y ≤ 9999 := by
  unfold fieldY at h
  split_ifs at h with hc
  injection h with h
  subst h
  have := digitsValNat_lt l (by rw [← List.all_eq_true]; exact hc.1)
  rw [hc.2] at this
  omega

theorem fieldDM_some_bounds (l : List Char) (max v : ℕ)
    (h : fieldDM l max = some v) : 1 ≤ v ∧ v ≤ max := by
  unfold fieldDM at h
  simp only [] at h
  split_ifs at h with hc hv
  injection h with h
  subst h
  exact hv

theorem daysInMonth_le_31 (y m : ℕ) : daysInMonth y m ≤ 31 := by
  unfold daysInMonth
  split_ifs <;> omega

theorem tryFormat_no_sep (sep : Char) (ord : DOrder) (l : List Char)
    (h : sep ∉ l) : tryFormat sep ord l = none := by
  unfold tryFormat
  rw [splitListOn_not_mem sep l h]

theorem tryFormat_ymd_eval (sep : Char) (l a b d : List Char) (y mv dv : ℕ)
    (hsplit : splitListOn sep l = [a, b, d]) (ha : fieldY a = some y)
    (hb : fieldDM b 12 = some mv) (hd : fieldDM d 31 = some dv)
    (hok : 1 ≤ y ∧ dv ≤ daysInMonth y mv) :
    tryFormat sep .ymd l = some (y, mv, dv) := by
  unfold tryFormat
  rw [hsplit]
  simp [ha, hb, hd, Option.bind, hok]

theorem tryFormat_dmy_eval (sep : Char) (l a b d : List Char) (y mv dv : ℕ)
    (hsplit : splitListOn sep l = [a, b, d]) (ha : fieldDM a 31 = some dv)
    (hb : fieldDM b 12 = some mv) (hd : fieldY d = some y)
    (hok : 1 ≤ y ∧ dv ≤ daysInMonth y mv) :
    tryFormat sep .dmy l = some (y, mv, dv) := by
  unfold tryFormat
  rw [hsplit]
  simp [ha, hb, hd, Option.bind, hok]

theorem tryFormat_ymd_bad_year (sep : Char) (l a b d : List Char)
    (hsplit : splitListOn sep l = [a, b, d]) (ha : fieldY a = none) :
    tryFormat sep .ymd l = none := by
  unfold tryFormat
  rw [hsplit]
  simp [ha, Option.bind]

theorem splitListOn_fmtISO (y m d : ℕ) :
    splitListOn '-' (fmtISO y m d) =
      [padLeftZero 4 (natRender y), padLeftZero 2 (natRender m),
       padLeftZero 2 (natRender d)] := by
  unfold fmtISO
  rw [List.append_assoc, List.cons_append]
  apply splitListOn_two_seps
  · intro hmem
    have := mem_padLeftZero_digit 4 _ (fun x hx => mem_natRender_digit y x hx) _ hmem
    simp [isDigitCh] at this
  · intro hmem
    have := mem_padLeftZero_digit 2 _ (fun x hx => mem_natRender_digit m x hx) _ hmem
    simp [isDigitCh] at this
  · intro hmem
    have := mem_padLeftZero_digit 2 _ (fun x hx => mem_natRender_digit d x hx) _ hmem
    simp [isDigitCh] at this

theorem tryFormat_fmtISO (y m d : ℕ) (h1 : 1 ≤ y) (h2 : y ≤ 9999) (h3 : 1 ≤ m)
    (h4 : m ≤ 12) (h5 : 1 ≤ d) (h6 : d ≤ daysInMonth y m) :
    tryFormat '-' .ymd (fmtISO y m d) = some (y, m, d) := by
  have hd31 : d ≤ 31 := le_trans h6 (daysInMonth_le_31 y m)
  exact tryFormat_ymd_eval '-' _ _ _ _ y m d (splitListOn_fmtISO y m d)
    (fieldY_pad y h1 h2) (fieldDM_pad m 12 h3 h4 (by omega))
    (fieldDM_pad d 31 h5 hd31 (by omega)) ⟨h1, h6⟩

theorem tryFormats_first (l : List Char) (v : ℕ × ℕ × ℕ)
    (h : tryFormat '-' .ymd l = some v) : tryFormats l = some v := by
  unfold tryFormats dateFormats
  rw [List.filterMap_cons]
  simp only [] at h ⊢
  rw [h]
  rfl

theorem head?_filterMap_some {α β} (f : α → Option β) :
    ∀ l : List α, ∀ v, (l.filterMap f).head? = some v → ∃ x ∈ l, f x = some v := by
  intro l
  induction l with
  | nil => intro v h; simp at h
  | cons x xs ih =>
    intro v h
    rw [List.filterMap_cons] at h
    cases hx : f x with
    | none =>
      rw [hx] at h
      obtain ⟨w, hw, hfw⟩ := ih v h
      exact ⟨w, by simp [hw], hfw⟩
    | some w =>
      rw [hx] at h
      simp at h
      subst h
      exact ⟨x, by simp, hx⟩

theorem tryFormat_some_bounds (sep : Char) (ord : DOrder) (l : List Char)
    (y m d : ℕ) (h : tryFormat sep ord l = some (y, m, d)) :
    1 ≤ y ∧ y ≤ 9999 ∧ 1 ≤ m ∧ m ≤ 12 ∧ 1 ≤ d ∧ d ≤ daysInMonth y m := by
  unfold tryFormat at h
  split at h
  case h_2 => exact absurd h (by simp)
  case h_1 x a b c heq =>
    cases ord with
    | ymd =>
      simp only [] at h
      cases hY : fieldY a with
      | none => rw [hY] at h; simp at h
      | some y' =>
        rw [hY] at h
        cases hM : fieldDM b 12 with
        | none => rw [hM] at h; simp at h
        | some m' =>
          rw [hM] at h
          cases hD : fieldDM c 31 with
          | none => rw [hD] at h; simp at h
          | some d' =>
            rw [hD] at h
            simp [Option.bind] at h
            obtain ⟨hok, rfl, rfl, rfl⟩ := h
            have bY := fieldY_some_bounds a _ hY
            have bM := fieldDM_some_bounds b 12 _ hM
            have bD := fieldDM_some_bounds c 31 _ hD
            exact ⟨hok.1, bY, bM.1, bM.2, bD.1, hok.2⟩
    | dmy =>
      simp only [] at h
      cases hY : fieldY c with
      | none => rw [hY] at h; simp at h
      | some y' =>
        rw [hY] at h
        cases hM : fieldDM b 12 with
        | none => rw [hM] at h; simp at h
        | some m' =>
          rw [hM] at h
          cases hD : fieldDM a 31 with
          | none => rw [hD] at h; simp at h
          | some d' =>
            rw [hD] at h
            simp [Option.bind] at h
            obtain ⟨hok, rfl, rfl, rfl⟩ := h
            have bY := fieldY_some_bounds c _ hY
            have bM := fieldDM_some_bounds b 12 _ hM
            have bD := fieldDM_some_bounds a 31 _ hD
            exact ⟨hok.1, bY, bM.1, bM.2, bD.1, hok.2⟩
    | mdy =>
      simp only [] at h
      cases hY : fieldY c with
      | none => rw [hY] at h; simp at h
      | some y' =>
        rw [hY] at h
        cases hM : fieldDM a 12 with
        | none => rw [hM] at h; simp at h
        | some m' =>
          rw [hM] at h
          cases hD : fieldDM b 31 with
          | none => rw [hD] at h; simp at h
          | some d' =>
            rw [hD] at h
            simp [Option.bind] at h
            obtain ⟨hok, rfl, rfl, rfl⟩ := h
            have bY := fieldY_some_bounds c _ hY
            have bM := fieldDM_some_bounds a 12 _ hM
            have bD := fieldDM_some_bounds b 31 _ hD
            exact ⟨hok.1, bY, bM.1, bM.2, bD.1, hok.2⟩

theorem tryFormats_some_bounds (l : List Char) (y m d : ℕ)
    (h : tryFormats l = some (y, m, d)) :
    1 ≤ y ∧ y ≤ 9999 ∧ 1 ≤ m ∧ m ≤ 12 ∧ 1 ≤ d ∧ d ≤ daysInMonth y m := by
  obtain ⟨f, -, hf⟩ := head?_filterMap_some _ dateFormats (y, m, d) h
  exact tryFormat_some_bounds f.1 f.2 l y m d hf

/-! ## `clean_date` unfolding lemmas -/

theorem String_mk_eq_empty_iff (l : List Char) : String.mk l = "" ↔ l = [] := by
  rw [String.ext_iff]

theorem clean_date_some_eq (s : String) (hs : s ≠ "") :
    clean_date (some s) =
      match tryFormats (pyStripList s.toList) with
      | some (y, m, d) => some (String.mk (fmtISO y m d))
      | none => some (String.mk (pyStripList s.toList)) := by
  have hd : clean_date (some s) =
      if s = "" then none
      else
        match tryFormats (pyStripList s.toList) with
        | some (y, m, d) => some (String.mk (fmtISO y m d))
        | none => some (String.mk (pyStripList s.toList)) := rfl
  rw [hd, if_neg hs]

theorem clean_date_pass (s : String) (hs : s ≠ "")
    (h : tryFormats (pyStripList s.toList) = none) :
    clean_date (some s) = some (String.mk (pyStripList s.toList)) := by
  rw [clean_date_some_eq s hs, h]

theorem clean_date_fmt (s : String) (hs : s ≠ "") (y m d : ℕ)
    (h : tryFormats (pyStripList s.toList) = some (y, m, d)) :
    clean_date (some s) = some (String.mk (fmtISO y m d)) := by
  rw [clean_date_some_eq s hs, h]

theorem mem_fmtISO_not_ws (y m d : ℕ) (c : Char) (h : c ∈ fmtISO y m d) :
    isPyWs c = false := by
  unfold fmtISO at h
  simp only [List.mem_append, List.mem_cons] at h
  rcases h with (h | (h | h)) | (h | h)
  · exact not_ws_of_digit
      (mem_padLeftZero_digit 4 _ (fun x hx => mem_natRender_digit y x hx) c h)
  · subst h; decide
  · exact not_ws_of_digit
      (mem_padLeftZero_digit 2 _ (fun x hx => mem_natRender_digit m x hx) c h)
  · subst h; decide
  · exact not_ws_of_digit
      (mem_padLeftZero_digit 2 _ (fun x hx => mem_natRender_digit d x hx) c h)

theorem fmtISO_ne_nil (y m d : ℕ) : fmtISO y m d ≠ [] := by
  unfold fmtISO
  simp

/-! ## Claim theorems about `clean_date` -/

/-- C6: `clean_date` returns null for an empty or absent input, and for
every non-empty input matching none of the six date patterns it returns the
whitespace-trimmed original string unchanged (not null, no error); in
particular `clean_date "not-a-date" = "not-a-date"`. -/
theorem c6_clean_date_fallbacks :
    clean_date none = none ∧ clean_date (some "") = none ∧
    (∀ s : String, s ≠ "" → tryFormats (pyStripList s.toList) = none →
      clean_date (some s) = some (pyStrip s)) ∧
    clean_date (some "not-a-date") = some "not-a-date" := by
  refine ⟨rfl, by decide, ?_, by decide⟩
  intro s hs ht
  rw [clean_date_pass s hs ht]
  rfl

theorem c6_witness :
    ("not-a-date" : String) ≠ "" ∧
    tryFormats (pyStripList "not-a-date".toList) = none ∧
    clean_date (some "not-a-date") = some (pyStrip "not-a-date") :=
  ⟨by decide, by decide,
    c6_clean_date_fallbacks.2.2.1 "not-a-date" (by decide) (by decide)⟩

/-- C10: a non-empty whitespace-only input passes the empty-input check
(which precedes trimming), is trimmed to the empty string, matches no
pattern, and is therefore returned as `""` — not as null. -/
theorem c10_whitespace_only (s : String) (hne : s ≠ "")
    (hws : ∀ c ∈ s.toList, isPyWs c = true) :
    clean_date (some s) = some "" := by
  have ht : pyStripList s.toList = [] := pyStripList_all_ws _ hws
  have htf : tryFormats (pyStripList s.toList) = none := by
    rw [ht]
    decide
  rw [clean_date_pass s hne htf, ht]

theorem c10_witness : (" " : String) ≠ "" ∧ clean_date (some " ") = some "" :=
  ⟨by decide, c10_whitespace_only " " (by decide) (by decide)⟩

/-- C9 fails as stated: a whitespace-only input maps to `some ""`, and
applying `clean_date` again maps `some ""` to `none`, so `clean_date` is not
idempotent at `" "`. -/
theorem c9_counterexample :
    clean_date (clean_date (some " ")) ≠ clean_date (some " ") := by decide

/-- C9 (amended): `clean_date` is idempotent on every input whose output is
not the empty string — i.e. except non-empty all-whitespace inputs: a
reformatted `YYYY-MM-DD` output reparses under the first pattern to itself,
a non-empty unparseable passthrough is already trimmed and still matches no
pattern, and null maps to null. -/
theorem c9_idempotent_unless_empty_output (x : Option String)
    (h : clean_date x ≠ some "") :
    clean_date (clean_date x) = clean_date x := by
  cases x with
  | none => rfl
  | some s =>
    by_cases hs : s = ""
    · subst hs; rfl
    · cases ht : tryFormats (pyStripList s.toList) with
      | none =>
        rw [clean_date_pass s hs ht] at h ⊢
        have hne : String.mk (pyStripList s.toList) ≠ "" := fun h0 => h (by rw [h0])
        have htf2 : tryFormats (pyStripList (String.mk (pyStripList s.toList)).toList) =
            none := by
          show tryFormats (pyStripList (pyStripList s.toList)) = none
          rw [pyStripList_idem]
          exact ht
        rw [clean_date_pass _ hne htf2]
        show some (String.mk (pyStripList (pyStripList s.toList))) = _
        rw [pyStripList_idem]
      | some v =>
        obtain ⟨y, m, d⟩ := v
        have bounds := tryFormats_some_bounds _ y m d ht
        rw [clean_date_fmt s hs y m d ht]
        have hne : String.mk (fmtISO y m d) ≠ "" := fun h0 =>
          fmtISO_ne_nil y m d ((String_mk_eq_empty_iff _).1 h0)
        have hstr : pyStripList (fmtISO y m d) = fmtISO y m d :=
          pyStripList_no_ws _ (mem_fmtISO_not_ws y m d)
        have htf2 : tryFormats (pyStripList (String.mk (fmtISO y m d)).toList) =
            some (y, m, d) := by
          show tryFormats (pyStripList (fmtISO y m d)) = some (y, m, d)
          rw [hstr]
          exact tryFormats_first _ _
            (tryFormat_fmtISO y m d bounds.1 bounds.2.1 bounds.2.2.1
              bounds.2.2.2.1 bounds.2.2.2.2.1 bounds.2.2.2.2.2)
        rw [clean_date_fmt _ hne y m d htf2]

theorem c9_witness :
    clean_date (some "20/04/2023") ≠ some "" ∧
    clean_date (clean_date (some "20/04/2023")) = clean_date (some "20/04/2023") :=
  ⟨by decide, c9_idempotent_unless_empty_output (some "20/04/2023") (by decide)⟩

/-- C2: `clean_date` tries the six patterns `%Y-%m-%d`, `%d/%m/%Y`,
`%m/%d/%Y`, `%d-%m-%Y`, `%m-%d-%Y`, `%Y/%m/%d` in that fixed order, the
first success winning and being reformatted as ISO; consequently every
slash- or dash-separated date whose first two one- or two-digit fields both
lie in 1..12 (with a four-digit year ≥ 1) is read day-first, e.g.
`"20/04/2023" → "2023-04-20"` and `"2023/04/20" → "2023-04-20"`. -/
theorem c2_day_first :
    (∀ (sep : Char), (sep = '/' ∨ sep = '-') →
      ∀ (da db dy : List Char),
        da.all isDigitCh = true → (da.length = 1 ∨ da.length = 2) →
        1 ≤ digitsValNat da → digitsValNat da ≤ 12 →
        db.all isDigitCh = true → (db.length = 1 ∨ db.length = 2) →
        1 ≤ digitsValNat db → digitsValNat db ≤ 12 →
        dy.all isDigitCh = true → dy.length = 4 → 1 ≤ digitsValNat dy →
        clean_date (some (String.mk (da ++ sep :: (db ++ sep :: dy)))) =
          some (String.mk
            (fmtISO (digitsValNat dy) (digitsValNat db) (digitsValNat da)))) ∧
    clean_date (some "20/04/2023") = some "2023-04-20" ∧
    clean_date (some "2023/04/20") = some "2023-04-20" := by
  refine ⟨?_, by decide, by decide⟩
  intro sep hsep da db dy hda hdal hda1 hda12 hdb hdbl hdb1 hdb12 hdy hdyl hdy1
  set L := da ++ sep :: (db ++ sep :: dy) with hL
  have hs_ne : String.mk L ≠ "" := by
    intro h0
    rw [String_mk_eq_empty_iff] at h0
    simp [hL] at h0
  have hall : ∀ c ∈ L, isDigitCh c = true ∨ c = sep := by
    intro c hc
    rw [hL] at hc
    simp only [List.mem_append, List.mem_cons] at hc
    rcases hc with hc | hc | hc | hc | hc
    · exact Or.inl ((List.all_eq_true.1 hda) c hc)
    · exact Or.inr hc
    · exact Or.inl ((List.all_eq_true.1 hdb) c hc)
    · exact Or.inr hc
    · exact Or.inl ((List.all_eq_true.1 hdy) c hc)
  have hnws : ∀ c ∈ L, isPyWs c = false := by
    intro c hc
    rcases hall c hc with h | h
    · exact not_ws_of_digit h
    · subst h
      rcases hsep with h | h <;> (subst h; decide)
  have hstrip : pyStripList L = L := pyStripList_no_ws L hnws
  have hsepnot : ∀ dl : List Char, dl.all isDigitCh = true → sep ∉ dl := by
    intro dl hdl hm
    have hd := (List.all_eq_true.1 hdl) sep hm
    rcases hsep with h | h <;> (subst h; exact absurd hd (by decide))
  have hsplit : splitListOn sep L = [da, db, dy] := by
    rw [hL]
    exact splitListOn_two_seps sep da db dy (hsepnot da hda) (hsepnot db hdb)
      (hsepnot dy hdy)
  have hday : digitsValNat da ≤ daysInMonth (digitsValNat dy) (digitsValNat db) :=
    le_trans (by omega) (daysInMonth_ge_28 _ _)
  have hfa : fieldDM da 31 = some (digitsValNat da) :=
    fieldDM_eval da 31 hda hdal hda1 (by omega)
  have hfb : fieldDM db 12 = some (digitsValNat db) :=
    fieldDM_eval db 12 hdb hdbl hdb1 hdb12
  have hfy : fieldY dy = some (digitsValNat dy) := fieldY_eval dy hdy hdyl
  rcases hsep with rfl | rfl
  · have hdash : ('-' : Char) ∉ L := by
      intro hm
      rcases hall '-' hm with h | h <;> exact absurd h (by decide)
    have h1 : tryFormat '-' .ymd L = none := tryFormat_no_sep _ _ _ hdash
    have h2 : tryFormat '/' .dmy L =
        some (digitsValNat dy, digitsValNat db, digitsValNat da) :=
      tryFormat_dmy_eval '/' L da db dy _ _ _ hsplit hfa hfb hfy ⟨hdy1, hday⟩
    have htf : tryFormats L =
        some (digitsValNat dy, digitsValNat db, digitsValNat da) := by
      unfold tryFormats dateFormats
      simp [h1, h2]
    exact clean_date_fmt (String.mk L) hs_ne _ _ _
      (by show tryFormats (pyStripList L) = _; rw [hstrip]; exact htf)
  · have hslash : ('/' : Char) ∉ L := by
      intro hm
      rcases hall '/' hm with h | h <;> exact absurd h (by decide)
    have h1 : tryFormat '-' .ymd L = none :=
      tryFormat_ymd_bad_year '-' L da db dy hsplit
        (fieldY_not_len da (by rcases hdal with h | h <;> omega))
    have h2 : tryFormat '/' .dmy L = none := tryFormat_no_sep _ _ _ hslash
    have h3 : tryFormat '/' .mdy L = none := tryFormat_no_sep _ _ _ hslash
    have h4 : tryFormat '-' .dmy L =
        some (digitsValNat dy, digitsValNat db, digitsValNat da) :=
      tryFormat_dmy_eval '-' L da db dy _ _ _ hsplit hfa hfb hfy ⟨hdy1, hday⟩
    have htf : tryFormats L =
        some (digitsValNat dy, digitsValNat db, digitsValNat da) := by
      unfold tryFormats dateFormats
      simp [h1, h2, h3, h4]
    exact clean_date_fmt (String.mk L) hs_ne _ _ _
      (by show tryFormats (pyStripList L) = _; rw [hstrip]; exact htf)

theorem c2_witness :
    clean_date (some (String.mk (['0', '4'] ++ '/' :: (['0', '5'] ++ '/' ::
      ['2', '0', '2', '3'])))) =
    some (String.mk (fmtISO (digitsValNat ['2', '0', '2', '3'])
      (digitsValNat ['0', '5']) (digitsValNat ['0', '4']))) :=
  c2_day_first.1 '/' (Or.inl rfl) ['0', '4'] ['0', '5'] ['2', '0', '2', '3']
    (by decide) (by decide) (by decide) (by decide) (by decide) (by decide)
    (by decide) (by decide) (by decide) (by decide) (by decide)

/-! ## Claim theorems about `clean_amount` and `clean_category` -/

theorem filter_dropWhile_not {α} (p : α → Bool) (l : List α) :
    (l.dropWhile p).filter (fun c => ! p c) = l.filter (fun c => ! p c) := by
  induction l with
  | nil => rfl
  | cons x xs ih =>
    by_cases hx : p x = true
    · rw [List.dropWhile_cons_of_pos hx, ih, List.filter_cons]
      simp [hx]
    · rw [List.dropWhile_cons_of_neg hx]

theorem filter_pyStripList (l : List Char) :
    (pyStripList l).filter (fun c => ! isPyWs c) =
      l.filter (fun c => ! isPyWs c) := by
  unfold pyStripList
  rw [List.filter_reverse, filter_dropWhile_not, List.filter_reverse,
    List.reverse_reverse, filter_dropWhile_not]

/-- C4: `clean_category` returns the label obtained by trimming and
lower-casing the input and looking it up in the fixed mapping
`food→Food, travel→Travel, health→Health, office→Office, other→Other`, with
`"Other"` for every other (or empty/absent) input, so the output always lies
in the closed five-label set. -/
theorem c4_category_closed (x : Option String) :
    (clean_category x =
      (if pyLower (pyStrip (x.getD "")) = "food" then "Food"
       else if pyLower (pyStrip (x.getD "")) = "travel" then "Travel"
       else if pyLower (pyStrip (x.getD "")) = "health" then "Health"
       else if pyLower (pyStrip (x.getD "")) = "office" then "Office"
       else if pyLower (pyStrip (x.getD "")) = "other" then "Other"
       else "Other")) ∧
    clean_category x ∈ (["Food", "Travel", "Health", "Office", "Other"] : List String) := by
  have key : clean_category x =
      (if pyLower (pyStrip (x.getD "")) = "food" then "Food"
       else if pyLower (pyStrip (x.getD "")) = "travel" then "Travel"
       else if pyLower (pyStrip (x.getD "")) = "health" then "Health"
       else if pyLower (pyStrip (x.getD "")) = "office" then "Office"
       else if pyLower (pyStrip (x.getD "")) = "other" then "Other"
       else "Other") := by
    cases x with
    | none => decide
    | some s =>
      by_cases hs : s = ""
      · subst hs; decide
      · have hc : clean_category (some s) =
            if s = "" then "Other"
            else
              if pyLower (pyStrip s) = "food" then "Food"
              else if pyLower (pyStrip s) = "travel" then "Travel"
              else if pyLower (pyStrip s) = "health" then "Health"
              else if pyLower (pyStrip s) = "office" then "Office"
              else if pyLower (pyStrip s) = "other" then "Other"
              else "Other" := rfl
        rw [hc, if_neg hs]
        rfl
  refine ⟨key, ?_⟩
  rw [key]
  split_ifs <;> simp

/-- C5: `clean_amount` is total and never raises: an absent value maps to
`0.0`, and every string whose normalized form fails to parse as a float
(such as `""` and `"abc"`) also yields `0.0` instead of an error. -/
theorem c5_amount_never_fails :
    clean_amount none = .finite 0 ∧
    (∀ s : String,
      pyFloatOfString? (String.mk (amountNormalizedChars s)) = none →
      clean_amount (some s) = .finite 0) ∧
    clean_amount (some "") = .finite 0 ∧
    clean_amount (some "abc") = .finite 0 := by
  refine ⟨rfl, ?_, by decide, by decide⟩
  intro s h
  show (match pyFloatOfString? (String.mk (amountNormalizedChars s)) with
        | some v => v
        | none => PyFloat.finite 0) = PyFloat.finite 0
  rw [h]

theorem c5_witness :
    pyFloatOfString? (String.mk (amountNormalizedChars "abc")) = none ∧
    clean_amount (some "abc") = .finite 0 :=
  ⟨by decide, c5_amount_never_fails.2.1 "abc" (by decide)⟩

/-- C3: `clean_amount` removes all whitespace characters (internal
included), then treats a comma with no period as the decimal separator,
drops commas as thousands separators when a period is also present, leaves
the string unchanged otherwise, and parses the result as a float; in
particular `"1,234.56" → 1234.56` and `"12,50" → 12.50`. -/
theorem c3_amount_separator_rules :
    (∀ s : String,
      clean_amount (some s) =
        match pyFloatOfString?
            (String.mk (separatorPass
              (s.toList.filter (fun c => ! isPyWs c)))) with
        | some v => v
        | none => PyFloat.finite 0) ∧
    clean_amount (some "1,234.56") = .finite (1234.56 : ℚ) ∧
    clean_amount (some "12,50") = .finite (12.50 : ℚ) := by
  refine ⟨?_, ?_, ?_⟩
  · intro s
    show (match pyFloatOfString? (String.mk (amountNormalizedChars s)) with
          | some v => v
          | none => PyFloat.finite 0) = _
    rw [show amountNormalizedChars s =
        separatorPass (s.toList.filter (fun c => ! isPyWs c)) by
      unfold amountNormalizedChars
      rw [filter_pyStripList]]
  · have h : clean_amount (some "1,234.56") = .finite (Rat.divInt 123456 100) := by
      decide
    rw [h]
    congr 1
    rw [Rat.divInt_eq_div]
    norm_num
  · have h : clean_amount (some "12,50") = .finite (Rat.divInt 1250 100) := by
      decide
    rw [h]
    congr 1
    rw [Rat.divInt_eq_div]
    norm_num

/-! ## Claim theorems about the `/analyze` endpoint -/

theorem analyze_core_error_of_missing (text : String) (tbl : CsvTable)
    (hR : read_csv text = .ok tbl)
    (h : findCol tbl.header "Name" = none ∨ findCol tbl.header "Date" = none ∨
      findCol tbl.header "Amount" = none ∨
      findCol tbl.header "Category" = none) :
    ∃ m, analyze_core text = .error m := by
  unfold analyze_core
  rw [hR]
  cases hN : findCol tbl.header "Name" <;>
    cases hD : findCol tbl.header "Date" <;>
      cases hA : findCol tbl.header "Amount" <;>
        cases hC : findCol tbl.header "Category" <;>
          first
          | exact ⟨_, rfl⟩
          | simp_all

/-- C7: the endpoint responds 400 exactly when the filename does not end in
`.csv`; in that case the response is the same fixed 400 error for every
request body, so the rejection happens before any content is read, decoded
or parsed, and every other error response carries status 500. -/
theorem c7_filename_gate (fn : String) (body : List ℕ) :
    (pyEndsWith fn ".csv" = false →
      analyze_expenses fn body = .error ⟨400, "File must be a CSV"⟩) ∧
    ((∃ e, analyze_expenses fn body = .error e ∧ e.status = 400) ↔
      pyEndsWith fn ".csv" = false) := by
  cases hE : pyEndsWith fn ".csv" with
  | false =>
    have h : analyze_expenses fn body = .error ⟨400, "File must be a CSV"⟩ := by
      unfold analyze_expenses
      rw [hE]
      rfl
    exact ⟨fun _ => h, ⟨fun _ => rfl, fun _ => ⟨_, h, rfl⟩⟩⟩
  | true =>
    have h500 : ∀ e, analyze_expenses fn body = .error e → e.status = 500 := by
      intro e he
      unfold analyze_expenses at he
      rw [hE] at he
      simp only [if_true] at he
      cases hD : utf8Decode body with
      | none =>
        rw [hD] at he
        replace he : Except.error (α := AnalyzeResponse)
            (⟨500, "Error processing file: " ++ utf8ErrorMsg⟩ : HTTPError) =
            Except.error e := he
        simp only [Except.error.injEq] at he
        rw [← he]
      | some cs =>
        rw [hD] at he
        replace he : (match analyze_core (String.mk cs) with
            | Except.error m =>
              Except.error (⟨500, "Error processing file: " ++ m⟩ : HTTPError)
            | Except.ok r => Except.ok r) = Except.error e := he
        cases hC : analyze_core (String.mk cs) with
        | error m =>
          rw [hC] at he
          simp only [Except.error.injEq] at he
          rw [← he]
        | ok r =>
          rw [hC] at he
          exact absurd he (by simp)
    constructor
    · intro hc
      exact absurd hc (by simp)
    · constructor
      · rintro ⟨e, he, hst⟩
        have := h500 e he
        rw [this] at hst
        exact absurd hst (by norm_num)
      · intro hc
        exact absurd hc (by simp)

theorem c7_witness :
    analyze_expenses "data.txt" (utf8Encode "Name;Date;Amount;Category") =
      .error ⟨400, "File must be a CSV"⟩ :=
  (c7_filename_gate "data.txt" (utf8Encode "Name;Date;Amount;Category")).1
    (by decide)

/-- C8: a `.csv`-named upload whose bytes are not valid UTF-8, whose text
fails to parse as a table, or whose header lacks one of the required
columns (such as `Category`) makes the endpoint respond 500 with a detail
embedding the underlying exception message, and produces no result. -/
theorem c8_processing_error (fn : String) (body : List ℕ)
    (hcsv : pyEndsWith fn ".csv" = true)
    (hbad : utf8Decode body = none ∨
      (∃ cs, utf8Decode body = some cs ∧
        ((∃ e, read_csv (String.mk cs) = .error e) ∨
          (∃ tbl, read_csv (String.mk cs) = .ok tbl ∧
            (findCol tbl.header "Name" = none ∨
             findCol tbl.header "Date" = none ∨
             findCol tbl.header "Amount" = none ∨
             findCol tbl.header "Category" = none))))) :
    ∃ msg, analyze_expenses fn body =
      .error ⟨500, "Error processing file: " ++ msg⟩ := by
  unfold analyze_expenses
  rw [hcsv]
  simp only [if_true]
  rcases hbad with hD | ⟨cs, hD, hcase⟩
  · rw [hD]
    exact ⟨utf8ErrorMsg, rfl⟩
  · rw [hD]
    show ∃ msg, (match analyze_core (String.mk cs) with
        | Except.error m =>
          Except.error (⟨500, "Error processing file: " ++ m⟩ : HTTPError)
        | Except.ok r => Except.ok r) =
      Except.error ⟨500, "Error processing file: " ++ msg⟩
    rcases hcase with ⟨e, hr⟩ | ⟨tbl, hr, hmiss⟩
    · have hc : analyze_core (String.mk cs) = .error e := by
        unfold analyze_core
        rw [hr]
      rw [hc]
      exact ⟨e, rfl⟩
    · obtain ⟨m, hm⟩ := analyze_core_error_of_missing _ tbl hr hmiss
      rw [hm]
      exact ⟨m, rfl⟩

theorem c8_witness :
    ∃ msg, analyze_expenses "data.csv" [255] =
      .error ⟨500, "Error processing file: " ++ msg⟩ :=
  c8_processing_error "data.csv" [255] (by decide) (Or.inl (by decide))

/-- C1: for every `.csv`-named upload whose UTF-8 content parses into a
table containing columns `Name`, `Date`, `Amount` and `Category`, the
`answer` field is `"$"` followed by the sum of the cleaned amounts of
exactly the rows whose cleaned category is `"Food"`, formatted with two
decimal places; the two-row example yields `"$12.50"` and a header-only
file yields `"$0.00"`. -/
theorem c1_analyze_food_total :
    (∀ (fn : String) (body : List ℕ) (cs : List Char) (tbl : CsvTable)
        (iN iD iA iC : ℕ),
      pyEndsWith fn ".csv" = true →
      utf8Decode body = some cs →
      read_csv (String.mk cs) = .ok tbl →
      findCol tbl.header "Name" = some iN →
      findCol tbl.header "Date" = some iD →
      findCol tbl.header "Amount" = some iA →
      findCol tbl.header "Category" = some iC →
      analyze_expenses fn body = .ok
        ⟨"$" ++ pyFormatF2 (pandasSum
            (((tbl.rows.map (cleanRow iN iD iA iC)).filter
                (fun r => r.category = "Food")).map CleanedRow.amount)),
          EMAIL, EXAM⟩) ∧
    analyze_expenses "expenses.csv"
      (utf8Encode
        "Name;Date;Amount;Category\njohn doe;20/04/2023;12,50;food\njane;2023-01-01;5.00;travel") =
      .ok ⟨"$12.50", EMAIL, EXAM⟩ ∧
    analyze_expenses "expenses.csv" (utf8Encode "Name;Date;Amount;Category") =
      .ok ⟨"$0.00", EMAIL, EXAM⟩ := by
  refine ⟨?_, by decide, by decide⟩
  intro fn body cs tbl iN iD iA iC hE hD hR hN hDt hA hC
  unfold analyze_expenses
  rw [hE]
  simp only [if_true]
  rw [hD]
  show (match analyze_core (String.mk cs) with
      | Except.error m =>
        Except.error (⟨500, "Error processing file: " ++ m⟩ : HTTPError)
      | Except.ok r => Except.ok r) = _
  have hcore : analyze_core (String.mk cs) = .ok
      ⟨"$" ++ pyFormatF2 (pandasSum
          (((tbl.rows.map (cleanRow iN iD iA iC)).filter
              (fun r => r.category = "Food")).map CleanedRow.amount)),
        EMAIL, EXAM⟩ := by
    unfold analyze_core
    simp only [hR, hN, hDt, hA, hC]
    unfold foodTotal
    rfl
  rw [hcore]

theorem c1_witness :
    analyze_expenses "expenses.csv"
      (utf8Encode
        "Name;Date;Amount;Category\njohn doe;20/04/2023;12,50;food\njane;2023-01-01;5.00;travel") =
      .ok ⟨"$" ++ pyFormatF2 (pandasSum
          ((((⟨["Name", "Date", "Amount", "Category"],
              [[some "john doe", some "20/04/2023", some "12,50", some "food"],
               [some "jane", some "2023-01-01", some "5.00", some "travel"]]⟩ :
                CsvTable).rows.map (cleanRow 0 1 2 3)).filter
              (fun r => r.category = "Food")).map CleanedRow.amount)),
        EMAIL, EXAM⟩ :=
  c1_analyze_food_total.1 "expenses.csv"
    (utf8Encode
      "Name;Date;Amount;Category\njohn doe;20/04/2023;12,50;food\njane;2023-01-01;5.00;travel")
    ("Name;Date;Amount;Category\njohn doe;20/04/2023;12,50;food\njane;2023-01-01;5.00;travel".toList)
    ⟨["Name", "Date", "Amount", "Category"],
      [[some "john doe", some "20/04/2023", some "12,50", some "food"],
       [some "jane", some "2023-01-01", some "5.00", some "travel"]]⟩
    0 1 2 3 (by decide) (by decide) (by decide) (by decide) (by decide)
    (by decide) (by decide)
